import Mathlib

/-
Verification of the Tic-Tac-Toe rules engine and its presentation-layer
driver.  The rules-engine module (createEmptyBoard, resetGame, isValidMove,
applyMove, getWinner, isDraw, nextPlayer) is imported by the route component
but its source file is not part of the repository snapshot, so those
functions are modelled from the specification.  The presentation-layer
handlers (updateStatus, handleCellClick, doReset) are embedded directly from
src/tictactoe_frontend/src/routes/index.tsx.
-/

namespace TicTacToe

/-- A player marker: X or O. -/
inductive Player where
  | X : Player
  | O : Player
deriving DecidableEq, Repr, Fintype

/-- A cell holds either a player marker or is empty (`none`, the TS `null`). -/
abbrev Cell := Option Player

/-- A board is an ordered sequence of cells; a well-formed board has
exactly 9 of them, index 0..8, row-major. -/
abbrev Board := List Cell

/-- Modelled from the spec: `createEmptyBoard()` from the missing
`~/lib/game` module returns a new Board of 9 empty-marker cells. -/
def createEmptyBoard : Board := List.replicate 9 none

/-- Modelled from the spec: `resetGame()` from the missing `~/lib/game`
module is equivalent to `createEmptyBoard()`. -/
def resetGame : Board := createEmptyBoard

/-- Modelled from the spec: `isValidMove(board, index)` from the missing
`~/lib/game` module is true iff `index` is an integer in [0,8] and
`board[index]` is the empty marker.  The index is an `Int` so that
out-of-range (negative or > 8) integer inputs are representable. -/
def isValidMove (b : Board) (i : Int) : Bool :=
  decide (0 ≤ i) && decide (i ≤ 8) && decide (b[i.toNat]? = some none)

/-- Modelled from the spec: `applyMove(board, index, player)` from the
missing `~/lib/game` module returns a new Board identical to the input
except `index` now holds `player`'s marker. -/
def applyMove (b : Board) (i : Int) (p : Player) : Board :=
  b.set i.toNat (some p)

/-- The 8 winning lines: 3 rows, 3 columns, 2 diagonals, in the order the
spec enumerates them. -/
def winningLines : List (Nat × Nat × Nat) :=
  [(0, 1, 2), (3, 4, 5), (6, 7, 8), (0, 3, 6), (1, 4, 7), (2, 5, 8), (0, 4, 8), (2, 4, 6)]

/-- The cell at a position (empty when the position is past the end). -/
def cellAt (b : Board) (i : Nat) : Cell := b.getD i none

/-- Modelled from the spec: the per-line check inside `getWinner` — a line
yields its player when all three of its cells hold that player's marker. -/
def lineWinner (b : Board) : Nat × Nat × Nat → Option Player
  | (i, j, k) =>
    match cellAt b i with
    | some p => if cellAt b j = some p && cellAt b k = some p then some p else none
    | none => none

/-- Modelled from the spec: `getWinner` evaluates the 8 winning lines in
their listed order and takes the first line with three equal non-empty
markers. -/
def findWinner (b : Board) : Option Player :=
  (winningLines.filterMap (lineWinner b)).head?

/-- Every cell of the board is filled (non-empty). -/
def isFull (b : Board) : Bool := b.all (fun c => c.isSome)

/-- The result record of `getWinner`: `{ winner: Player | null, draw: boolean }`. -/
structure WinnerResult where
  winner : Option Player
  draw : Bool
deriving DecidableEq, Repr

/-- Modelled from the spec: `getWinner(board)` from the missing
`~/lib/game` module.  If any line has three equal non-empty markers, that
player is the winner with `draw: false`; if no line wins and every cell is
filled, `winner: null, draw: true`; otherwise `winner: null, draw: false`. -/
def getWinner (b : Board) : WinnerResult :=
  match findWinner b with
  | some p => ⟨some p, false⟩
  | none => if isFull b then ⟨none, true⟩ else ⟨none, false⟩

/-- Modelled from the spec: `isDraw(board)` from the missing `~/lib/game`
module is true iff every cell is filled and `getWinner` would report no
winner. -/
def isDraw (b : Board) : Bool :=
  isFull b && decide ((getWinner b).winner = none)

/-- The number of filled (non-empty) cells of a board. -/
def countFilled (b : Board) : Nat := b.countP (fun c => c.isSome)

/-- Modelled from the spec: `nextPlayer(board)` from the missing
`~/lib/game` module counts filled cells; even count means X's turn,
odd count means O's turn. -/
def nextPlayer (b : Board) : Player :=
  if countFilled b % 2 = 0 then Player.X else Player.O

/-- Strictly alternating legal play: run a list of move indices from a
board, each move made by the player indicated by turn parity, requiring at
each step that the game is not yet won, the board is not full, and the
target cell is a valid move.  Returns `none` when any step is illegal. -/
def playMoves (b : Board) : List Int → Option Board
  | [] => some b
  | i :: rest =>
    if (getWinner b).winner = none ∧ isFull b = false ∧ isValidMove b i = true then
      playMoves (applyMove b i (nextPlayer b)) rest
    else none

/-- Line `l` is completely marked by player `p` on board `b`. -/
def LineWinsFor (b : Board) (p : Player) (l : Nat × Nat × Nat) : Prop :=
  cellAt b l.1 = some p ∧ cellAt b l.2.1 = some p ∧ cellAt b l.2.2 = some p

instance (b : Board) (p : Player) (l : Nat × Nat × Nat) : Decidable (LineWinsFor b p l) := by
  unfold LineWinsFor; infer_instance

/-- Player `p` has some completed winning line on board `b`. -/
def HasWinLine (b : Board) (p : Player) : Prop :=
  ∃ l ∈ winningLines, LineWinsFor b p l

instance (b : Board) (p : Player) : Decidable (HasWinLine b p) := by
  unfold HasWinLine; infer_instance

/-- Scenario A of the spec: from the empty board, X plays 0, O plays 4,
X plays 1, O plays 7, X plays 2. -/
def boardScenarioA : Board :=
  applyMove (applyMove (applyMove (applyMove
    (applyMove createEmptyBoard 0 Player.X) 4 Player.O) 1 Player.X) 7 Player.O) 2 Player.X

/-- Scenario B of the spec: the full board X O X / X O O / O X X. -/
def boardScenarioB : Board :=
  [some Player.X, some Player.O, some Player.X,
   some Player.X, some Player.O, some Player.O,
   some Player.O, some Player.X, some Player.X]

example : getWinner boardScenarioA = ⟨some Player.X, false⟩ := by decide
example : getWinner boardScenarioB = ⟨none, true⟩ := by decide
example : isValidMove createEmptyBoard 9 = false := by decide
example : nextPlayer boardScenarioA = Player.O := by decide
example : isDraw boardScenarioB = true := by decide
example : playMoves createEmptyBoard [0, 4, 1, 7, 2] = some boardScenarioA := by decide

/-! ### Presentation layer, embedded from
`src/tictactoe_frontend/src/routes/index.tsx`.

The `timestamp` field of an audit event (a wall-clock ISO string) is not
representable in a pure embedding and is omitted; every other field of the
TS `AuditEvent` record is kept.  The user-facing `message` string of the
store is modelled as an inductive value carrying the same information. -/

/-- The `action` tag of an audit event: `"MOVE" | "RESET" | "ERROR"`. -/
inductive AuditAction where
  | MOVE : AuditAction
  | RESET : AuditAction
  | ERROR : AuditAction
deriving DecidableEq, Repr

/-- An audit event, from `AuditTrailPanel.tsx` (timestamp omitted, and the
open `meta` record split into its three used keys: `message`, `index`,
`player`). -/
structure AuditEvent where
  action : AuditAction
  userId : String
  before : Option Board
  after : Option Board
  metaMessage : Option String
  metaIndex : Option Int
  metaPlayer : Option Player
deriving DecidableEq, Repr

/-- The status text of the store (`state.message` in the TSX source):
either a turn announcement, a win announcement, or the draw message. -/
inductive StatusMessage where
  | playerTurn : Player → StatusMessage
  | playerWins : Player → StatusMessage
  | itsADraw : StatusMessage
deriving DecidableEq, Repr

/-- The component state: the `useStore` fields (`board`, `message`, `over`,
`current`), the `errorMsg` signal, and the audit-event list. -/
structure UIState where
  board : Board
  message : StatusMessage
  over : Bool
  current : Player
  errorMsg : Option String
  events : List AuditEvent
deriving DecidableEq, Repr

/-- The initial component state of the TSX source. -/
def initialState : UIState :=
  { board := createEmptyBoard
    message := StatusMessage.playerTurn Player.X
    over := false
    current := Player.X
    errorMsg := none
    events := [] }

/-- The ERROR audit event that `handleCellClick` logs for a rejected
click: the message, the index, and the board as the `before` snapshot. -/
def errorEvent (b : Board) (msg : String) (i : Int) : AuditEvent where
  action := AuditAction.ERROR
  userId := "anonymous"
  before := some b
  after := none
  metaMessage := some msg
  metaIndex := some i
  metaPlayer := none

/-- The MOVE audit event that `handleCellClick` logs for an accepted
move: before/after snapshots, the index, and the player. -/
def moveEvent (before after : Board) (i : Int) (p : Player) : AuditEvent where
  action := AuditAction.MOVE
  userId := "anonymous"
  before := some before
  after := some after
  metaMessage := none
  metaIndex := some i
  metaPlayer := some p

/-- The RESET audit event that `doReset` logs: before/after snapshots. -/
def resetEvent (before after : Board) : AuditEvent where
  action := AuditAction.RESET
  userId := "anonymous"
  before := some before
  after := some after
  metaMessage := none
  metaIndex := none
  metaPlayer := none

/-- Embedding of `updateStatus` from `index.tsx`: recompute outcome of the current
board; on a winner set the win message and the over flag; on a draw
(reported either by `getWinner(...).draw` or by `isDraw`) set the draw
message and the over flag; otherwise advance `current` to `nextPlayer` and
announce the turn. -/
def updateStatus (st : UIState) : UIState :=
  match (getWinner st.board).winner with
  | some w => { st with message := StatusMessage.playerWins w, over := true }
  | none =>
    if (getWinner st.board).draw || isDraw st.board then
      { st with message := StatusMessage.itsADraw, over := true }
    else
      { st with
        current := nextPlayer st.board
        message := StatusMessage.playerTurn (nextPlayer st.board)
        over := false }

/-- Embedding of `handleCellClick` from `index.tsx`: reject an out-of-range index, then
a click while the game is over, then an invalid (occupied) move — each
rejection sets the error banner and appends one ERROR audit event.  When
all three checks pass, apply the move, append one MOVE audit event, run
`updateStatus`, and clear the error banner. -/
def handleCellClick (st : UIState) (index : Int) : UIState :=
  if index < 0 ∨ index > 8 then
    { st with
      errorMsg := some "Invalid position."
      events := st.events ++ [errorEvent st.board "Out of range index" index] }
  else if st.over then
    { st with
      errorMsg := some "Game is already over. Please restart."
      events := st.events ++ [errorEvent st.board "Move after game over" index] }
  else if ¬ isValidMove st.board index then
    { st with
      errorMsg := some "Cell already occupied."
      events := st.events ++ [errorEvent st.board "Invalid move - occupied" index] }
  else
    let before := st.board
    let next := applyMove st.board index st.current
    let moved : UIState :=
      { st with
        board := next
        events := st.events ++ [moveEvent before next index st.current] }
    let updated := updateStatus moved
    { updated with errorMsg := none }

/-- Embedding of `doReset` from `index.tsx`: replace the board by `resetGame()`, set
current player X, clear the over flag and the error banner, announce X's
turn, and append one RESET audit event with before/after snapshots. -/
def doReset (st : UIState) : UIState :=
  { st with
    board := resetGame
    current := Player.X
    over := false
    message := StatusMessage.playerTurn Player.X
    errorMsg := none
    events := st.events ++ [resetEvent st.board resetGame] }

example : (handleCellClick initialState 9).board = createEmptyBoard := by decide
example : ((handleCellClick initialState 9).events.map AuditEvent.action) = [AuditAction.ERROR] := by decide
example : (handleCellClick initialState 0).board = applyMove createEmptyBoard 0 Player.X := by decide
example : (handleCellClick initialState 0).current = Player.O := by decide

/-! ### Basic lemmas about the engine functions. -/

/-- Unfolding `isValidMove` into its three conjuncts. -/
lemma isValidMove_eq_true_iff (b : Board) (i : Int) :
    isValidMove b i = true ↔ 0 ≤ i ∧ i ≤ 8 ∧ b[i.toNat]? = some none := by
  simp [isValidMove, and_assoc]

/-- A valid move targets a position inside the board. -/
lemma lt_length_of_isValidMove {b : Board} {i : Int}
    (h : isValidMove b i = true) : i.toNat < b.length := by
  obtain ⟨-, -, hc⟩ := (isValidMove_eq_true_iff b i).mp h
  exact (List.getElem?_eq_some_iff.mp hc).1

/-- A valid move targets an empty cell. -/
lemma getElem?_of_isValidMove {b : Board} {i : Int}
    (h : isValidMove b i = true) : b[i.toNat]? = some none :=
  ((isValidMove_eq_true_iff b i).mp h).2.2

/-- After a valid move, the target cell holds the mover's marker. -/
lemma cellAt_applyMove_self {b : Board} {i : Int} (p : Player)
    (h : isValidMove b i = true) :
    cellAt (applyMove b i p) i.toNat = some p := by
  unfold cellAt applyMove
  rw [List.getD_eq_getElem?_getD, List.getElem?_set_self (lt_length_of_isValidMove h)]
  rfl

/-- The function `applyMove` leaves every other position unchanged. -/
lemma cellAt_applyMove_ne (b : Board) (i : Int) (p : Player) {j : Nat}
    (h : j ≠ i.toNat) : cellAt (applyMove b i p) j = cellAt b j := by
  unfold cellAt applyMove
  rw [List.getD_eq_getElem?_getD, List.getD_eq_getElem?_getD,
    List.getElem?_set_ne (Ne.symm h)]

/-- The per-line check returns `some p` exactly when the line is fully
marked by `p`. -/
lemma lineWinner_eq_some_iff (b : Board) (l : Nat × Nat × Nat) (p : Player) :
    lineWinner b l = some p ↔ LineWinsFor b p l := by
  obtain ⟨i, j, k⟩ := l
  unfold lineWinner LineWinsFor
  dsimp only
  cases h : cellAt b i with
  | none => simp
  | some q =>
    by_cases hj : cellAt b j = some q <;> by_cases hk : cellAt b k = some q <;>
      by_cases hqp : q = p <;> simp_all

/-- Taking `head?` of a `filterMap` whose hits are all `p`, with at least one hit. -/
lemma head?_filterMap_of_uniform {α β : Type} (f : α → Option β) (p : β) :
    ∀ l : List α, (∀ x ∈ l, f x = none ∨ f x = some p) →
    (∃ x ∈ l, f x = some p) → (l.filterMap f).head? = some p := by
  intro l
  induction l with
  | nil => rintro - ⟨x, hx, -⟩; cases hx
  | cons a t ih =>
    rintro hall hex
    rcases hall a (List.mem_cons_self a t) with ha | ha
    · rw [List.filterMap_cons_none ha]
      refine ih (fun x hx => hall x (List.mem_cons_of_mem a hx)) ?_
      obtain ⟨x, hx, hfx⟩ := hex
      rcases List.mem_cons.mp hx with rfl | hx
      · rw [ha] at hfx; cases hfx
      · exact ⟨x, hx, hfx⟩
    · rw [List.filterMap_cons_some ha]
      rfl

/-- If no line is fully marked, `findWinner` reports nobody. -/
lemma findWinner_eq_none (b : Board)
    (h : ∀ l ∈ winningLines, ∀ q, ¬ LineWinsFor b q l) :
    findWinner b = none := by
  unfold findWinner
  rw [List.head?_eq_none_iff, List.filterMap_eq_nil_iff]
  intro l hl
  cases hq : lineWinner b l with
  | none => rfl
  | some q => exact absurd ((lineWinner_eq_some_iff b l q).mp hq) (h l hl q)

/-- The `winner` field of `getWinner` is exactly `findWinner`. -/
lemma getWinner_winner (b : Board) : (getWinner b).winner = findWinner b := by
  unfold getWinner
  cases findWinner b with
  | none => dsimp only; split <;> rfl
  | some p => rfl

/-- If some line is fully marked by somebody, `findWinner` reports a
winner. -/
lemma findWinner_ne_none_of_line {b : Board} {l : Nat × Nat × Nat} {q : Player}
    (hl : l ∈ winningLines) (hw : LineWinsFor b q l) : findWinner b ≠ none := by
  intro h
  unfold findWinner at h
  rw [List.head?_eq_none_iff, List.filterMap_eq_nil_iff] at h
  have := h l hl
  rw [(lineWinner_eq_some_iff b l q).mpr hw] at this
  cases this

/-- If the board has no winner then no line at all is fully marked. -/
lemma no_line_of_winner_none {b : Board} (h : (getWinner b).winner = none) :
    ∀ l ∈ winningLines, ∀ q, ¬ LineWinsFor b q l := by
  intro l hl q hw
  rw [getWinner_winner] at h
  exact findWinner_ne_none_of_line hl hw h

/-- When `p` is the unique line-winner on a board, `getWinner` returns
`p` with `draw: false` — independently of the order the lines are
checked in. -/
lemma getWinner_eq_of_unique (b : Board) (p : Player)
    (huniq : ∀ l ∈ winningLines, ∀ q, LineWinsFor b q l → q = p)
    (hex : ∃ l ∈ winningLines, LineWinsFor b p l) :
    getWinner b = ⟨some p, false⟩ := by
  have hfw : findWinner b = some p := by
    unfold findWinner
    refine head?_filterMap_of_uniform (lineWinner b) p winningLines ?_ ?_
    · intro l hl
      cases hq : lineWinner b l with
      | none => exact Or.inl rfl
      | some q =>
        have hqp := huniq l hl q ((lineWinner_eq_some_iff b l q).mp hq)
        exact Or.inr (by rw [hqp])
    · obtain ⟨l, hl, hw⟩ := hex
      exact ⟨l, hl, (lineWinner_eq_some_iff b l p).mpr hw⟩
  unfold getWinner
  rw [hfw]

/-- A valid move fills exactly one more cell. -/
lemma countFilled_applyMove (b : Board) (i : Int) (p : Player)
    (h : isValidMove b i = true) :
    countFilled (applyMove b i p) = countFilled b + 1 := by
  have hlt := lt_length_of_isValidMove h
  have hc := getElem?_of_isValidMove h
  have hcell : b[i.toNat] = (none : Cell) := by
    obtain ⟨h1, he⟩ := List.getElem?_eq_some_iff.mp hc
    exact he
  unfold countFilled applyMove
  rw [List.countP_set _ _ _ _ hlt, hcell]
  simp

/-- Running a trace of legal moves adds one filled cell per move. -/
lemma countFilled_playMoves :
    ∀ (ms : List Int) (b b' : Board), playMoves b ms = some b' →
      countFilled b' = countFilled b + ms.length := by
  intro ms
  induction ms with
  | nil =>
    intro b b' h
    obtain rfl : b = b' := by simpa [playMoves] using h
    simp
  | cons i rest ih =>
    intro b b' h
    unfold playMoves at h
    split at h
    case isTrue hg =>
      have := ih _ _ h
      rw [countFilled_applyMove b i (nextPlayer b) hg.2.2] at this
      simp [this]
      omega
    case isFalse => cases h

/-- Starting a trace from the empty board, the number of filled cells
equals the number of moves made. -/
lemma countFilled_playMoves_empty (ms : List Int) (b : Board)
    (h : playMoves createEmptyBoard ms = some b) :
    countFilled b = ms.length := by
  have := countFilled_playMoves ms createEmptyBoard b h
  simpa [countFilled, createEmptyBoard] using this

/-- One step of legal play never lets the non-moving player complete a
line: any winning line on the successor board belongs to the mover. -/
lemma hasWinLine_applyMove {b : Board} {i : Int} {p q : Player}
    (hv : isValidMove b i = true)
    (hnw : (getWinner b).winner = none)
    (hq : HasWinLine (applyMove b i p) q) : q = p := by
  obtain ⟨l, hl, hw⟩ := hq
  obtain ⟨w1, w2, w3⟩ := hw
  by_cases hmem : l.1 = i.toNat ∨ l.2.1 = i.toNat ∨ l.2.2 = i.toNat
  · have hcell := cellAt_applyMove_self (b := b) (i := i) p hv
    rcases hmem with h | h | h
    · rw [h, hcell] at w1
      exact (Option.some_inj.mp w1).symm
    · rw [h, hcell] at w2
      exact (Option.some_inj.mp w2).symm
    · rw [h, hcell] at w3
      exact (Option.some_inj.mp w3).symm
  · push_neg at hmem
    obtain ⟨h1, h2, h3⟩ := hmem
    rw [cellAt_applyMove_ne b i p h1] at w1
    rw [cellAt_applyMove_ne b i p h2] at w2
    rw [cellAt_applyMove_ne b i p h3] at w3
    exact absurd ⟨w1, w2, w3⟩ (no_line_of_winner_none hnw l hl q)

/-- Along legal alternating play, the at-most-one-winner property is
preserved. -/
lemma playMoves_at_most_one :
    ∀ (ms : List Int) (b0 b : Board), playMoves b0 ms = some b →
      (∀ p q, HasWinLine b0 p → HasWinLine b0 q → p = q) →
      ∀ p q, HasWinLine b p → HasWinLine b q → p = q := by
  intro ms
  induction ms with
  | nil =>
    intro b0 b h hinv
    obtain rfl : b0 = b := by simpa [playMoves] using h
    exact hinv
  | cons i rest ih =>
    intro b0 b h hinv
    unfold playMoves at h
    split at h
    case isTrue hg =>
      refine ih _ _ h ?_
      intro p q hp hq
      rw [hasWinLine_applyMove hg.2.2 hg.1 hp, hasWinLine_applyMove hg.2.2 hg.1 hq]
    case isFalse => cases h

/-- The function `updateStatus` never touches the board or the audit list. -/
lemma updateStatus_board_events (st : UIState) :
    (updateStatus st).board = st.board ∧ (updateStatus st).events = st.events := by
  unfold updateStatus
  cases h : (getWinner st.board).winner with
  | none => dsimp only; split <;> exact ⟨rfl, rfl⟩
  | some w => exact ⟨rfl, rfl⟩

/-! ### Claim theorems. -/

/-- C1: `applyMove` is pure and frame-preserving: for every board `b`,
index `i` valid per `isValidMove` and player `p`, the returned board holds
`p`'s marker at index `i`, equals `b` at every other index, and has the
same length.  The input board itself is untouched: `applyMove` is a pure
function of its arguments, so `b` denotes the same value after the call. -/
theorem applyMove_frame (b : Board) (i : Int) (p : Player)
    (h : isValidMove b i = true) :
    (applyMove b i p)[i.toNat]? = some (some p) ∧
    (∀ j : Nat, j ≠ i.toNat → (applyMove b i p)[j]? = b[j]?) ∧
    (applyMove b i p).length = b.length := by
  refine ⟨?_, ?_, ?_⟩
  · exact List.getElem?_set_self (lt_length_of_isValidMove h)
  · intro j hj
    exact List.getElem?_set_ne (Ne.symm hj)
  · exact List.length_set b i.toNat (some p)

/-- Witness for C1 at the concrete input: the empty board, index 4,
player O. -/
theorem applyMove_frame_witness :
    isValidMove createEmptyBoard 4 = true ∧
    (applyMove createEmptyBoard 4 Player.O)[(4 : Int).toNat]? = some (some Player.O) :=
  ⟨by decide, (applyMove_frame createEmptyBoard 4 Player.O (by decide)).1⟩

/-- C2: `getWinner` evaluates exactly the 8 winning lines.  When a player
`p` is the (necessarily unique, per the spec's alternating-play invariant)
owner of a fully marked line, the result is `{winner: p, draw: false}`;
when no line is fully marked the result is `{winner: null, draw: true}` on
a full board and `{winner: null, draw: false}` otherwise; and the two
concrete spec scenarios evaluate as stated. -/
theorem getWinner_characterization :
    (∀ (b : Board) (p : Player),
       (∀ l ∈ winningLines, ∀ q, LineWinsFor b q l → q = p) →
       (∃ l ∈ winningLines, LineWinsFor b p l) →
       getWinner b = ⟨some p, false⟩) ∧
    (∀ b : Board, (∀ l ∈ winningLines, ∀ q, ¬ LineWinsFor b q l) →
       isFull b = true → getWinner b = ⟨none, true⟩) ∧
    (∀ b : Board, (∀ l ∈ winningLines, ∀ q, ¬ LineWinsFor b q l) →
       isFull b = false → getWinner b = ⟨none, false⟩) ∧
    getWinner boardScenarioA = ⟨some Player.X, false⟩ ∧
    getWinner boardScenarioB = ⟨none, true⟩ := by
  refine ⟨getWinner_eq_of_unique, ?_, ?_, by decide, by decide⟩
  · intro b h hful
    unfold getWinner
    rw [findWinner_eq_none b h, hful]
    rfl
  · intro b h hful
    unfold getWinner
    rw [findWinner_eq_none b h, hful]
    rfl

/-- Witness for C2 at the concrete input: scenario A's board with the
unique winner X. -/
theorem getWinner_characterization_witness :
    getWinner boardScenarioA = ⟨some Player.X, false⟩ :=
  getWinner_characterization.1 boardScenarioA Player.X (by decide) (by decide)

/-- C3: on a 9-cell board, `isValidMove` is true iff the index is in
[0,8] and the addressed cell is empty — independently of any turn or
game-over information (which `isValidMove` does not receive). -/
theorem isValidMove_characterization (b : Board) (i : Int)
    (hb : b.length = 9) :
    isValidMove b i = true ↔ 0 ≤ i ∧ i ≤ 8 ∧ cellAt b i.toNat = none := by
  rw [isValidMove_eq_true_iff]
  constructor
  · rintro ⟨h0, h8, hc⟩
    refine ⟨h0, h8, ?_⟩
    unfold cellAt
    rw [List.getD_eq_getElem?_getD, hc]
    rfl
  · rintro ⟨h0, h8, hc⟩
    refine ⟨h0, h8, ?_⟩
    have hlt : i.toNat < b.length := by rw [hb]; omega
    unfold cellAt at hc
    rw [List.getD_eq_getElem?_getD, List.getElem?_eq_getElem hlt] at hc
    rw [List.getElem?_eq_getElem hlt]
    simpa using hc

/-- Witness for C3 at the concrete input: the empty board and index 3. -/
theorem isValidMove_characterization_witness :
    createEmptyBoard.length = 9 ∧
    (isValidMove createEmptyBoard 3 = true ↔
      0 ≤ (3 : Int) ∧ (3 : Int) ≤ 8 ∧ cellAt createEmptyBoard (3 : Int).toNat = none) :=
  ⟨by decide, isValidMove_characterization createEmptyBoard 3 (by decide)⟩

/-- C9: `isDraw` agrees with the `draw` field of `getWinner` on every
board. -/
theorem isDraw_eq_getWinner_draw (b : Board) :
    isDraw b = (getWinner b).draw := by
  unfold isDraw
  cases h : findWinner b with
  | some p =>
    have hw : (getWinner b).winner = some p := by rw [getWinner_winner, h]
    unfold getWinner
    rw [h]
    simp [hw]
  | none =>
    have hw : (getWinner b).winner = none := by rw [getWinner_winner, h]
    unfold getWinner
    rw [h]
    cases hf : isFull b <;> simp [hw, hf]

/-- C4: `nextPlayer` is a pure parity function of occupancy — X on an
even number of filled cells, O on an odd one — and consequently along any
trace of legal alternating moves from the empty board the player to move
after `k` moves is X for even `k` and O for odd `k` (i.e. the `nextPlayer`
results before each of the first 9 moves are X, O, X, O, X, O, X, O, X). -/
theorem nextPlayer_parity :
    (∀ b : Board,
       nextPlayer b = if countFilled b % 2 = 0 then Player.X else Player.O) ∧
    (∀ (ms : List Int) (b : Board), playMoves createEmptyBoard ms = some b →
       nextPlayer b = if ms.length % 2 = 0 then Player.X else Player.O) := by
  refine ⟨fun b => rfl, ?_⟩
  intro ms b h
  unfold nextPlayer
  rw [countFilled_playMoves_empty ms b h]

/-- Witness for C4 at the concrete input: the trace X plays 0, O plays 4
(two moves, so X is next). -/
theorem nextPlayer_parity_witness :
    nextPlayer (applyMove (applyMove createEmptyBoard 0 Player.X) 4 Player.O) =
      if ([0, 4] : List Int).length % 2 = 0 then Player.X else Player.O :=
  nextPlayer_parity.2 [0, 4]
    (applyMove (applyMove createEmptyBoard 0 Player.X) 4 Player.O) (by decide)

/-- C5: on every board reachable from the empty board by strictly
alternating legal play, at most one player owns a completed line, and
whenever a player does, `getWinner` returns exactly that player with
`draw: false` — so the result does not depend on the order the 8 lines
are checked in. -/
theorem reachable_at_most_one_winner (ms : List Int) (b : Board)
    (h : playMoves createEmptyBoard ms = some b) :
    (∀ p q, HasWinLine b p → HasWinLine b q → p = q) ∧
    (∀ p, HasWinLine b p → getWinner b = ⟨some p, false⟩) := by
  have huniq : ∀ p q, HasWinLine b p → HasWinLine b q → p = q :=
    playMoves_at_most_one ms createEmptyBoard b h (by decide)
  refine ⟨huniq, ?_⟩
  intro p hp
  refine getWinner_eq_of_unique b p ?_ hp
  intro l hl q hq
  exact huniq q p ⟨l, hl, hq⟩ hp

/-- Witness for C5 at the concrete input: the trace X plays 0, O plays 3,
X plays 1, O plays 4, X plays 2 — X completes the top row. -/
theorem reachable_at_most_one_winner_witness :
    getWinner (applyMove (applyMove (applyMove (applyMove
        (applyMove createEmptyBoard 0 Player.X) 3 Player.O) 1 Player.X)
        4 Player.O) 2 Player.X) = ⟨some Player.X, false⟩ :=
  (reachable_at_most_one_winner [0, 3, 1, 4, 2]
      (applyMove (applyMove (applyMove (applyMove
        (applyMove createEmptyBoard 0 Player.X) 3 Player.O) 1 Player.X)
        4 Player.O) 2 Player.X) (by decide)).2 Player.X (by decide)

/-- C8: `resetGame()` returns the same fresh 9-cell empty board as
`createEmptyBoard()` (independent of any prior board, since it takes
none), and driving any sequence of at most 9 legal alternating moves from
either start produces the same boards and hence the same `getWinner`
outcome. -/
theorem resetGame_equiv_createEmptyBoard :
    resetGame = createEmptyBoard ∧
    ∀ ms : List Int, ms.length ≤ 9 →
      playMoves resetGame ms = playMoves createEmptyBoard ms ∧
      (playMoves resetGame ms).map getWinner =
        (playMoves createEmptyBoard ms).map getWinner := by
  exact ⟨rfl, fun ms h => ⟨rfl, rfl⟩⟩

/-- Witness for C8 at the concrete input: the two-move trace 0, 4. -/
theorem resetGame_equiv_createEmptyBoard_witness :
    ([0, 4] : List Int).length ≤ 9 ∧
    (playMoves resetGame [0, 4]).map getWinner =
      (playMoves createEmptyBoard [0, 4]).map getWinner :=
  ⟨by decide, (resetGame_equiv_createEmptyBoard.2 [0, 4] (by decide)).2⟩

/-- C6: for every click index outside [0,8], `handleCellClick` rejects the
move before consulting `isValidMove` (the rejection is unconditional in
the rest of the state, in particular in the board's contents and the over
flag): the board is unchanged, exactly one ERROR audit event is appended,
and no MOVE event is appended. -/
theorem handleCellClick_out_of_range (st : UIState) (i : Int)
    (h : i < 0 ∨ i > 8) :
    (handleCellClick st i).board = st.board ∧
    (handleCellClick st i).events =
      st.events ++ [errorEvent st.board "Out of range index" i] ∧
    (errorEvent st.board "Out of range index" i).action = AuditAction.ERROR ∧
    (∀ e ∈ (handleCellClick st i).events,
      e.action = AuditAction.MOVE → e ∈ st.events) := by
  unfold handleCellClick
  rw [if_pos h]
  refine ⟨rfl, rfl, rfl, ?_⟩
  intro e he hm
  rcases List.mem_append.mp he with he | he
  · exact he
  · obtain rfl : e = errorEvent st.board "Out of range index" i := by
      simpa using he
    cases hm

/-- Witness for C6 at the concrete input: the initial state clicked at
index 9. -/
theorem handleCellClick_out_of_range_witness :
    (handleCellClick initialState 9).board = initialState.board ∧
    (handleCellClick initialState 9).events =
      initialState.events ++ [errorEvent initialState.board "Out of range index" 9] :=
  ⟨(handleCellClick_out_of_range initialState 9 (by decide)).1,
   (handleCellClick_out_of_range initialState 9 (by decide)).2.1⟩

/-- C7: once the over flag is set, every click is rejected: the board,
over flag and current player are unchanged and exactly one ERROR audit
event is appended — for an in-range index it is precisely the
"Move after game over" (GameAlreadyOver) event; and `doReset` is the
transition that returns to the initial in-progress configuration: empty
board, over flag cleared, current player X, X's-turn message. -/
theorem gameOver_rejects_until_reset (st : UIState) (i : Int)
    (h : st.over = true) :
    (handleCellClick st i).board = st.board ∧
    (handleCellClick st i).over = true ∧
    (handleCellClick st i).current = st.current ∧
    (∃ e, (handleCellClick st i).events = st.events ++ [e] ∧
      e.action = AuditAction.ERROR) ∧
    (0 ≤ i → i ≤ 8 →
      (handleCellClick st i).events =
        st.events ++ [errorEvent st.board "Move after game over" i]) ∧
    (doReset st).board = createEmptyBoard ∧
    (doReset st).over = false ∧
    (doReset st).current = Player.X ∧
    (doReset st).message = StatusMessage.playerTurn Player.X := by
  by_cases hr : i < 0 ∨ i > 8
  · unfold handleCellClick
    rw [if_pos hr]
    exact ⟨rfl, h, rfl,
      ⟨errorEvent st.board "Out of range index" i, rfl, rfl⟩,
      fun h0 h8 => absurd hr (by omega), rfl, rfl, rfl, rfl⟩
  · unfold handleCellClick
    rw [if_neg hr, if_pos h]
    exact ⟨rfl, h, rfl,
      ⟨errorEvent st.board "Move after game over" i, rfl, rfl⟩,
      fun h0 h8 => rfl, rfl, rfl, rfl, rfl⟩

/-- Witness for C7 at the concrete input: a terminal state (initial state
with the over flag set) clicked at index 0. -/
theorem gameOver_rejects_until_reset_witness :
    (handleCellClick { initialState with over := true } 0).board =
      ({ initialState with over := true } : UIState).board ∧
    (handleCellClick { initialState with over := true } 0).events =
      ({ initialState with over := true } : UIState).events ++
        [errorEvent ({ initialState with over := true } : UIState).board
          "Move after game over" 0] :=
  ⟨(gameOver_rejects_until_reset { initialState with over := true } 0 rfl).1,
   (gameOver_rejects_until_reset { initialState with over := true } 0 rfl).2.2.2.2.1
     (by decide) (by decide)⟩

/-- C10: the three rejection checks of `handleCellClick` apply in a fixed
precedence order — out-of-range first (even on a finished game), then
game-already-over (even on an occupied cell), then cell-occupied — each
appending exactly one ERROR event carrying its own distinct message, and a
MOVE event is appended exactly when all three checks pass. -/
theorem handleCellClick_precedence (st : UIState) (i : Int) :
    (i < 0 ∨ i > 8 →
      (handleCellClick st i).events =
        st.events ++ [errorEvent st.board "Out of range index" i]) ∧
    (0 ≤ i → i ≤ 8 → st.over = true →
      (handleCellClick st i).events =
        st.events ++ [errorEvent st.board "Move after game over" i]) ∧
    (0 ≤ i → i ≤ 8 → st.over = false → isValidMove st.board i = false →
      (handleCellClick st i).events =
        st.events ++ [errorEvent st.board "Invalid move - occupied" i]) ∧
    (0 ≤ i → i ≤ 8 → st.over = false → isValidMove st.board i = true →
      (handleCellClick st i).events =
        st.events ++
          [moveEvent st.board (applyMove st.board i st.current) i st.current]) := by
  refine ⟨?_, ?_, ?_, ?_⟩
  · intro hr
    unfold handleCellClick
    rw [if_pos hr]
  · intro h0 h8 hov
    unfold handleCellClick
    rw [if_neg (by omega), if_pos hov]
  · intro h0 h8 hov hval
    unfold handleCellClick
    rw [if_neg (by omega), if_neg (by rw [hov]; exact Bool.false_ne_true),
      if_pos (by rw [hval]; exact Bool.false_ne_true)]
  · intro h0 h8 hov hval
    unfold handleCellClick
    rw [if_neg (by omega), if_neg (by rw [hov]; exact Bool.false_ne_true),
      if_neg (by rw [hval]; intro hc; exact hc rfl)]
    dsimp only
    rw [(updateStatus_board_events _).2]

/-- Witness for C10 at the concrete input: the initial state clicked at
index 0 — all three checks pass and one MOVE event is appended. -/
theorem handleCellClick_precedence_witness :
    (handleCellClick initialState 0).events =
      initialState.events ++
        [moveEvent initialState.board
          (applyMove initialState.board 0 initialState.current) 0
          initialState.current] :=
  (handleCellClick_precedence initialState 0).2.2.2
    (by decide) (by decide) (by decide) (by decide)

end TicTacToe
